import Mathlib

/-!
Verification development for `accSetupSync.py`, a tool that mirrors
Assetto Corsa Competizione setup files across the 15 known track
directories of each car directory under a watched `Setups` root.

The filesystem is modelled shallowly: a car directory is a list of
subdirectory names plus an association list of `(track, filename, bytes)`
entries (bytes are abstracted as a `Nat`); the watched root is an
association list from car names to car directories.  Filesystem listing
order is the insertion order of the association lists.  A Python
exception aborting a pass is modelled by returning the state built so
far paired with `false` (`true` means the pass completed normally).
-/

namespace AccSetupSync

/-- The fixed, ordered list of 15 known track folder names
(`ACC_TRACK_FOLDERS` in the source). -/
def ACC_TRACK_FOLDERS : List String :=
  [ "Barcelona"
  , "brands_hatch"
  , "Hungaroring"
  , "Kyalami"
  , "Laguna_Seca"
  , "misano"
  , "monza"
  , "mount_panorama"
  , "nurburgring"
  , "Paul_Ricard"
  , "Silverstone"
  , "Spa"
  , "Suzuka"
  , "Zandvoort"
  , "Zolder" ]

/-- The state of one car directory: the subdirectory names present in it,
and the setup files as `(track, filename, bytes)` entries in listing order. -/
structure CarFS where
  dirs : List String
  files : List (String × String × Nat)
deriving DecidableEq, Repr

/-- The watched root: car directories keyed by car name. -/
structure RootFS where
  cars : List (String × CarFS)
deriving DecidableEq, Repr

/-- `os.path.isdir(carDir/t)`. -/
def isDir (car : CarFS) (t : String) : Bool :=
  car.dirs.contains t

/-- `os.mkdir(carDir/t)`. -/
def mkdir (car : CarFS) (t : String) : CarFS :=
  { car with dirs := car.dirs ++ [t] }

/-- `list_dir(carDir/t, files = True)`: the filenames in track directory
`t`, in listing order. -/
def listFiles (car : CarFS) (t : String) : List String :=
  (car.files.filter (fun e => e.1 == t)).map (fun e => e.2.1)

/-- Read the bytes of `carDir/t/n`, if that file exists. -/
def readFile (car : CarFS) (t : String) (n : String) : Option Nat :=
  (car.files.find? (fun e => e.1 == t && e.2.1 == n)).map (fun e => e.2.2)

/-- `os.path.isfile(carDir/t/n)`. -/
def isFile (car : CarFS) (t : String) (n : String) : Bool :=
  (readFile car t n).isSome

/-- Replace the first element satisfying `p` by its image under `g`. -/
def updateFirst {α : Type} (p : α → Bool) (g : α → α) : List α → List α
  | [] => []
  | x :: xs => if p x then g x :: xs else x :: updateFirst p g xs

/-- Write bytes `b` to `carDir/t/n`, overwriting in place if the file
exists and appending it to the directory listing otherwise.  Callers run
`create_track_dirs` first, so the target directory always exists at call
sites; writing into a missing directory (which would raise in Python) is
modelled as a no-op. -/
def writeFile (car : CarFS) (t : String) (n : String) (b : Nat) : CarFS :=
  if isDir car t then
    if car.files.any (fun e => e.1 == t && e.2.1 == n) then
      { car with
        files := updateFirst (fun e => e.1 == t && e.2.1 == n)
          (fun e => (e.1, e.2.1, b)) car.files }
    else
      { car with files := car.files ++ [(t, n, b)] }
  else car

/-- `os.remove(carDir/t/n)`. -/
def removeFile (car : CarFS) (t : String) (n : String) : CarFS :=
  { car with files := car.files.filter (fun e => !(e.1 == t && e.2.1 == n)) }

/-- `shutil.move(carDir/t/n, carDir/t/n2)`: rename a file within its
track directory (clobbering any file already named `n2`). -/
def moveFile (car : CarFS) (t : String) (n n2 : String) : CarFS :=
  match readFile car t n with
  | none => car
  | some b => writeFile (removeFile car t n) t n2 b

/-- Look up a car directory by name under the root. -/
def getCar (root : RootFS) (c : String) : Option CarFS :=
  (root.cars.find? (fun e => e.1 == c)).map (fun e => e.2)

/-- Store back the car directory named `c`. -/
def setCar (root : RootFS) (c : String) (car : CarFS) : RootFS :=
  if root.cars.any (fun e => e.1 == c) then
    { cars := updateFirst (fun e => e.1 == c) (fun e => (e.1, car)) root.cars }
  else
    { cars := root.cars ++ [(c, car)] }

/-- The loop body of `create_track_dirs`: for each track name, create the
subdirectory when it is missing; also return the list of directories
created (the `os.mkdir` calls performed). -/
def ensureDirs : CarFS → List String → CarFS × List String
  | car, [] => (car, [])
  | car, t :: rest =>
    if isDir car t then ensureDirs car rest
    else
      match ensureDirs (mkdir car t) rest with
      | (car2, created) => (car2, t :: created)

/-- `create_track_dirs(carDir)`: make sure all 15 track directories exist;
the second component records which directories were created. -/
def create_track_dirs (car : CarFS) : CarFS × List String :=
  ensureDirs car ACC_TRACK_FOLDERS

/-- `os.path.split` on a path represented as a list of segments. -/
def pathSplit (p : List String) : List String × String :=
  (p.dropLast, p.getLastD "")

/-- The track directory of an event: the event path itself for a
directory event, `os.path.dirname(event.src_path)` otherwise. -/
def trackDirOf (isDirEvent : Bool) (srcPath : List String) : List String :=
  if isDirEvent then srcPath else srcPath.dropLast

/-- `carDir, trackName = os.path.split(trackDir)`. -/
def carDirOf (isDirEvent : Bool) (srcPath : List String) : List String :=
  (pathSplit (trackDirOf isDirEvent srcPath)).1

/-- The track name resolved from an event path. -/
def trackNameOf (isDirEvent : Bool) (srcPath : List String) : String :=
  (pathSplit (trackDirOf isDirEvent srcPath)).2

/-- `_, carName = os.path.split(carDir)`. -/
def carNameOf (isDirEvent : Bool) (srcPath : List String) : String :=
  (pathSplit (carDirOf isDirEvent srcPath)).2

/-- `setupName = os.path.basename(event.src_path)` for a file event. -/
def setupNameOf (srcPath : List String) : String :=
  (pathSplit srcPath).2

/-- The copy loop of the directory branch (`for setup in setups:` at the
target track): when the target file exists the copy is skipped; when it
is missing the source line runs `shutil.copy(setupPath, targetPath)`,
but `setupPath` is never assigned in the directory branch, so reaching
that line raises `UnboundLocalError` — no copy ever happens.  Returns
`true` when the loop finishes without raising. -/
def copyCheck (car : CarFS) (track : String) : List String → Bool
  | [] => true
  | s :: rest =>
    if isFile car track s then copyCheck car track rest else false

/-- The removal loop of the directory branch: remove from `track` every
file of the snapshot `trackSetups` whose name is not in `setups`. -/
def removeLoop (track : String) (setups : List String) :
    CarFS → List String → CarFS
  | car, [] => car
  | car, s :: rest =>
    if setups.contains s then removeLoop track setups car rest
    else removeLoop track setups (removeFile car track s) rest

/-- The directory-branch loop over `ACC_TRACK_FOLDERS`: skip the source
track; otherwise run the copy loop (which raises at the first missing
target file, aborting the pass), then the removal loop over a fresh
listing of the target track. -/
def dirPass (trackName : String) (setups : List String) :
    CarFS → List String → CarFS × Bool
  | car, [] => (car, true)
  | car, t :: rest =>
    if t == trackName then dirPass trackName setups car rest
    else if copyCheck car t setups then
      dirPass trackName setups
        (removeLoop t setups car (listFiles car t)) rest
    else (car, false)

/-- The file-branch loop over `ACC_TRACK_FOLDERS`: skip the source track;
otherwise `shutil.copyfile(setupPath, targetPath)` — re-read the source
file and overwrite the target unconditionally.  A missing source file
would raise, aborting the pass. -/
def filePass (trackName sName : String) : CarFS → List String → CarFS × Bool
  | car, [] => (car, true)
  | car, t :: rest =>
    if t == trackName then filePass trackName sName car rest
    else
      match readFile car trackName sName with
      | none => (car, false)
      | some b => filePass trackName sName (writeFile car t sName b) rest

/-- The body of `EventHandler.on_modified` (the code inside the
`with self._observer.ignore_events():` block): resolve track and car
names from the event path, discard the event when the car segment is the
reserved name `"Setups"`, otherwise ensure the track directories exist
and run the directory-level or single-file synchronization pass.  A car
directory not present under the root would make `os.mkdir` raise, which
is modelled by `(root, false)`. -/
def on_modified_body (root : RootFS) (isDirEvent : Bool)
    (srcPath : List String) : RootFS × Bool :=
  let trackName := trackNameOf isDirEvent srcPath
  let carName := carNameOf isDirEvent srcPath
  if carName == "Setups" then (root, true)
  else
    match getCar root carName with
    | none => (root, false)
    | some car =>
      let car1 := (create_track_dirs car).1
      if isDirEvent then
        let setups := listFiles car1 trackName
        let r := dirPass trackName setups car1 ACC_TRACK_FOLDERS
        (setCar root carName r.1, r.2)
      else
        let sName := setupNameOf srcPath
        let r := filePass trackName sName car1 ACC_TRACK_FOLDERS
        (setCar root carName r.1, r.2)

end AccSetupSync

namespace AccSetupSync

/-- A raw filesystem event: `(is_directory, src_path)`. -/
structure FsEvent where
  is_directory : Bool
  src_path : List String
deriving DecidableEq, Repr

/-- The observer state of `PausingObserver`: the `_is_paused` flag and
the backend event queue. -/
structure ObsState where
  is_paused : Bool
  queue : List FsEvent
deriving DecidableEq, Repr

/-- `PausingObserver.pause`. -/
def pause (o : ObsState) : ObsState :=
  { o with is_paused := true }

/-- `PausingObserver.resume`: `time.sleep(self.timeout)` (a real-time
delay that does not change observer state — its purpose is to let the
backend finish queuing events generated during the pause), then
`self.event_queue.queue.clear()`, then `self._is_paused = False`. -/
def resume (o : ObsState) : ObsState :=
  let o1 := o
  let o2 := { o1 with queue := ([] : List FsEvent) }
  { o2 with is_paused := false }

/-- `PausingObserver.dispatch_events`: when paused, the superclass
dispatch is skipped entirely (no event is popped or delivered);
otherwise the observer thread pops one queued event and dispatches it. -/
def dispatch_events (o : ObsState) : ObsState × Option FsEvent :=
  if o.is_paused then (o, none)
  else
    match o.queue with
    | [] => (o, none)
    | e :: rest => ({ o with queue := rest }, some e)

/-- The backend enqueuing one observed event. -/
def enqueue (o : ObsState) (e : FsEvent) : ObsState :=
  { o with queue := o.queue ++ [e] }

/-- The backend enqueuing a batch of observed events in order. -/
def enqueueAll (o : ObsState) : List FsEvent → ObsState
  | [] => o
  | e :: es => enqueueAll (enqueue o e) es

/-- `EventHandler.on_modified` including the suppression gate:
`ignore_events` is a generator-based context manager
(`pause(); yield; resume()`) with no `try/finally`, so `resume` runs
only when the protected body returns normally; when the body raises,
the exception propagates out of the `with` block before `resume`. -/
def on_modified (o : ObsState) (root : RootFS) (isDirEvent : Bool)
    (srcPath : List String) : ObsState × RootFS × Bool :=
  let o1 := pause o
  let r := on_modified_body root isDirEvent srcPath
  if r.2 then (resume o1, r.1, true) else (o1, r.1, false)

/-- The rename loop of `init` for one track: prefix each file of the
snapshot `setups` with the track name, collecting the renamed files as
`(track, newName)` pairs in order. -/
def renameTrack (track : String) : CarFS → List String → CarFS × List (String × String)
  | car, [] => (car, [])
  | car, s :: rest =>
    let newName := track ++ "-" ++ s
    match renameTrack track (moveFile car track s newName) rest with
    | (car2, ps) => (car2, (track, newName) :: ps)

/-- The rename phase of `init`: for each known track, list its files and
rename each by prefixing the track name, accumulating `setupPaths`. -/
def renamePhase : CarFS → List String → CarFS × List (String × String)
  | car, [] => (car, [])
  | car, t :: rest =>
    match renameTrack t car (listFiles car t) with
    | (car1, ps1) =>
      match renamePhase car1 rest with
      | (car2, ps2) => (car2, ps1 ++ ps2)

/-- The inner copy loop of `init` for one renamed setup `(srcTrack, n)`:
copy it to every known track, skipping the self-copy (the Python path
equality `setupPath == targetPath` holds exactly when the target track
is the source track, since the basenames coincide).  The source is
re-read on each copy; a missing source would raise. -/
def copyOne (srcTrack n : String) : CarFS → List String → CarFS × Bool
  | car, [] => (car, true)
  | car, t :: rest =>
    if t == srcTrack then copyOne srcTrack n car rest
    else
      match readFile car srcTrack n with
      | none => (car, false)
      | some b => copyOne srcTrack n (writeFile car t n b) rest

/-- The copy phase of `init`: copy every renamed setup into every other
track directory. -/
def copyPhase : CarFS → List (String × String) → CarFS × Bool
  | car, [] => (car, true)
  | car, p :: rest =>
    match copyOne p.1 p.2 car ACC_TRACK_FOLDERS with
    | (car1, ok) => if ok then copyPhase car1 rest else (car1, false)

/-- The body of `init` for one car: ensure track directories, rename all
existing setups with their track prefix, then fan every renamed setup
out to every other track. -/
def initCar (car : CarFS) : CarFS × Bool :=
  match renamePhase (create_track_dirs car).1 ACC_TRACK_FOLDERS with
  | (car2, setupPaths) => copyPhase car2 setupPaths

/-- The car loop of `init`: process each car directory under the root in
listing order; an exception aborts the remaining cars. -/
def initCars : List (String × CarFS) → List (String × CarFS) × Bool
  | [] => ([], true)
  | c :: rest =>
    match initCar c.2 with
    | (car2, ok) =>
      if ok then
        match initCars rest with
        | (cars2, ok2) => ((c.1, car2) :: cars2, ok2)
      else ((c.1, car2) :: rest, false)

/-- `init(setupsPath)`: the Bulk Initializer over the whole root. -/
def init (root : RootFS) : RootFS × Bool :=
  match initCars root.cars with
  | (cars2, ok) => (⟨cars2⟩, ok)

/-- Relabel the bytes of every file of a car directory by `f`.  File and
directory names are untouched, so no control-flow decision of the tool
can distinguish `car` from `mapB f car`; this is used to transport
closed-bytes evaluations of `init` to arbitrary byte contents. -/
def mapB (f : Nat → Nat) (car : CarFS) : CarFS :=
  ⟨car.dirs, car.files.map (fun e => (e.1, e.2.1, f e.2.2))⟩

/-- Relabel the bytes of every file under the root by `f`. -/
def mapBRoot (f : Nat → Nat) (root : RootFS) : RootFS :=
  ⟨root.cars.map (fun c => (c.1, mapB f c.2))⟩

/-- The empty car directory, used as a lookup default in closed statements. -/
def emptyCar : CarFS := ⟨[], []⟩

/-- A concrete car directory: `s.json` under `monza` while `Spa` exists
and lacks it, so a directory-level pass must copy it. -/
def carMissingTarget : CarFS :=
  ⟨["monza", "Spa"], [("monza", "s.json", 1)]⟩

/-- The root holding only `carMissingTarget` under the name `F488`. -/
def rootMissingTarget : RootFS :=
  ⟨[("F488", carMissingTarget)]⟩

/-- A concrete car directory in a stale state: `a.json` was removed from
`monza` but is still present in `Barcelona` and `Spa`, and `monza` holds
a file `b.json` that `Barcelona` lacks. -/
def carStale : CarFS :=
  ⟨ACC_TRACK_FOLDERS,
   [("monza", "b.json", 1), ("Barcelona", "a.json", 2), ("Spa", "a.json", 2)]⟩

/-- The root holding only `carStale` under the name `F488`. -/
def rootStale : RootFS :=
  ⟨[("F488", carStale)]⟩

/-- A concrete car directory where `monza` and `Spa` hold same-named
files with different bytes. -/
def carBoth : CarFS :=
  ⟨ACC_TRACK_FOLDERS, [("monza", "s.json", 5), ("Spa", "s.json", 9)]⟩

/-- The root holding only `carBoth` under the name `F488`. -/
def rootBoth : RootFS :=
  ⟨[("F488", carBoth)]⟩

/-- A concrete synchronized car directory: every one of the 15 track
directories holds `b.json`. -/
def carSynced : CarFS :=
  ⟨ACC_TRACK_FOLDERS,
     [ ("Barcelona", "b.json", 1)
     , ("brands_hatch", "b.json", 1)
     , ("Hungaroring", "b.json", 1)
     , ("Kyalami", "b.json", 1)
     , ("Laguna_Seca", "b.json", 1)
     , ("misano", "b.json", 1)
     , ("monza", "b.json", 1)
     , ("mount_panorama", "b.json", 1)
     , ("nurburgring", "b.json", 1)
     , ("Paul_Ricard", "b.json", 1)
     , ("Silverstone", "b.json", 1)
     , ("Spa", "b.json", 1)
     , ("Suzuka", "b.json", 1)
     , ("Zandvoort", "b.json", 1)
     , ("Zolder", "b.json", 1) ]⟩

/-- The root holding only `carSynced` under the name `F488`. -/
def rootSynced : RootFS :=
  ⟨[("F488", carSynced)]⟩

/-- A concrete root for the Bulk Initializer scenario: car `Ferrari488`
has a single setup file `setup1.json` with bytes `b`, under `monza` only. -/
def rootSingle (b : Nat) : RootFS :=
  ⟨[("Ferrari488", ⟨["monza"], [("monza", "setup1.json", b)]⟩)]⟩

/-- The car directory produced by one Bulk Initializer run on
`rootSingle b`: every track directory exists, and every track holds
`monza-setup1.json` with bytes `b` (the normal form of
`init (rootSingle b)`). -/
def carAfterInit (b : Nat) : CarFS :=
  ⟨[ "monza"
   , "Barcelona"
   , "brands_hatch"
   , "Hungaroring"
   , "Kyalami"
   , "Laguna_Seca"
   , "misano"
   , "mount_panorama"
   , "nurburgring"
   , "Paul_Ricard"
   , "Silverstone"
   , "Spa"
   , "Suzuka"
   , "Zandvoort"
   , "Zolder" ],
   [ ("monza", "monza-setup1.json", b)
   , ("Barcelona", "monza-setup1.json", b)
   , ("brands_hatch", "monza-setup1.json", b)
   , ("Hungaroring", "monza-setup1.json", b)
   , ("Kyalami", "monza-setup1.json", b)
   , ("Laguna_Seca", "monza-setup1.json", b)
   , ("misano", "monza-setup1.json", b)
   , ("mount_panorama", "monza-setup1.json", b)
   , ("nurburgring", "monza-setup1.json", b)
   , ("Paul_Ricard", "monza-setup1.json", b)
   , ("Silverstone", "monza-setup1.json", b)
   , ("Spa", "monza-setup1.json", b)
   , ("Suzuka", "monza-setup1.json", b)
   , ("Zandvoort", "monza-setup1.json", b)
   , ("Zolder", "monza-setup1.json", b) ]⟩

end AccSetupSync

namespace AccSetupSync

theorem find?_updateFirst_of_disjoint {α : Type} (p q : α → Bool) (g : α → α)
    (h1 : ∀ e, p e = true → q e = false) (h2 : ∀ e, q (g e) = q e) :
    ∀ l : List α, (updateFirst p g l).find? q = l.find? q := by
  intro l
  induction l with
  | nil => rfl
  | cons x xs ih =>
    by_cases hp : p x = true
    · have hq : q x = false := h1 x hp
      have hqg : q (g x) = false := by rw [h2]; exact hq
      simp [updateFirst, hp, List.find?, hq, hqg]
    · simp only [Bool.not_eq_true] at hp
      simp only [updateFirst, hp, Bool.false_eq_true, if_false]
      by_cases hq : q x = true
      · simp [List.find?, hq]
      · simp only [Bool.not_eq_true] at hq
        simp [List.find?, hq, ih]

theorem find?_updateFirst_self {α : Type} (p : α → Bool) (g : α → α)
    (h : ∀ e, p (g e) = p e) :
    ∀ l : List α, (updateFirst p g l).find? p = (l.find? p).map g := by
  intro l
  induction l with
  | nil => rfl
  | cons x xs ih =>
    by_cases hp : p x = true
    · have hpg : p (g x) = true := by rw [h]; exact hp
      simp [updateFirst, hp, List.find?, hpg]
    · simp only [Bool.not_eq_true] at hp
      simp [updateFirst, hp, List.find?, ih]

theorem find?_filter_of_imp {α : Type} (q r : α → Bool)
    (h : ∀ e, q e = true → r e = true) :
    ∀ l : List α, (l.filter r).find? q = l.find? q := by
  intro l
  induction l with
  | nil => rfl
  | cons x xs ih =>
    by_cases hq : q x = true
    · have hr : r x = true := h x hq
      simp [List.filter, hr, List.find?, hq]
    · simp only [Bool.not_eq_true] at hq
      by_cases hr : r x = true
      · simp [List.filter, hr, List.find?, hq, ih]
      · simp only [Bool.not_eq_true] at hr
        simp [List.filter, hr, List.find?, hq, ih]

theorem find?_none_of_sublist_filter {α : Type} (q r : α → Bool) (l : List α)
    (h : l.find? q = none) : (l.filter r).find? q = none := by
  rw [List.find?_eq_none] at h ⊢
  intro x hx
  exact h x (List.mem_filter.mp hx).1

/-! Lemmas about reading after writing or removing a file. -/

theorem writeFile_dirs (car : CarFS) (t n : String) (b : Nat) :
    (writeFile car t n b).dirs = car.dirs := by
  unfold writeFile
  split <;> [skip; rfl]
  split <;> rfl

theorem isDir_writeFile (car : CarFS) (t n : String) (b : Nat) (t2 : String) :
    isDir (writeFile car t n b) t2 = isDir car t2 := by
  unfold isDir
  rw [writeFile_dirs]

theorem removeFile_dirs (car : CarFS) (t n : String) :
    (removeFile car t n).dirs = car.dirs := rfl

theorem isDir_removeFile (car : CarFS) (t n : String) (t2 : String) :
    isDir (removeFile car t n) t2 = isDir car t2 := rfl

theorem readFile_writeFile_same (car : CarFS) (t n : String) (b : Nat)
    (hd : isDir car t = true) :
    readFile (writeFile car t n b) t n = some b := by
  unfold writeFile
  rw [hd, if_pos rfl]
  by_cases ha : car.files.any (fun e => e.1 == t && e.2.1 == n) = true
  · rw [if_pos ha]
    unfold readFile
    simp only
    rw [find?_updateFirst_self _ _ (by intro e; rfl)]
    cases hfind : car.files.find? (fun e => e.1 == t && e.2.1 == n) with
    | none =>
      exfalso
      rw [List.find?_eq_none] at hfind
      rcases List.any_eq_true.mp ha with ⟨x, hx, hpx⟩
      exact hfind x hx hpx
    | some e => rfl
  · simp only [Bool.not_eq_true] at ha
    rw [if_neg (by rw [ha]; exact Bool.false_ne_true)]
    unfold readFile
    simp only
    rw [List.find?_append]
    have h0 : car.files.find? (fun e => e.1 == t && e.2.1 == n) = none := by
      rw [List.find?_eq_none]
      intro x hx
      have := List.any_eq_false.mp (by rw [ha]) x hx
      simp [this]
    rw [h0]
    simp [List.find?]

theorem readFile_writeFile_other (car : CarFS) (t n t2 n2 : String) (b : Nat)
    (h : t ≠ t2 ∨ n ≠ n2) :
    readFile (writeFile car t2 n2 b) t n = readFile car t n := by
  have hkey : ∀ e : String × String × Nat,
      (e.1 == t2 && e.2.1 == n2) = true → (e.1 == t && e.2.1 == n) = false := by
    intro e he
    rw [Bool.and_eq_true] at he
    have h1 : e.1 = t2 := eq_of_beq he.1
    have h2 : e.2.1 = n2 := eq_of_beq he.2
    rcases h with h | h
    · have : (e.1 == t) = false := beq_eq_false_iff_ne.mpr (by rw [h1]; exact fun hh => h hh.symm)
      simp [this]
    · have : (e.2.1 == n) = false := beq_eq_false_iff_ne.mpr (by rw [h2]; exact fun hh => h hh.symm)
      simp [this]
  unfold writeFile
  split <;> [skip; rfl]
  split
  · unfold readFile
    simp only
    rw [find?_updateFirst_of_disjoint _ _ _ hkey (by intro e; rfl)]
  · unfold readFile
    simp only
    rw [List.find?_append]
    have : List.find? (fun e => e.1 == t && e.2.1 == n) [(t2, n2, b)] = none := by
      have := hkey (t2, n2, b) (by simp)
      simp [List.find?, this]
    rw [this, Option.or_none]

theorem readFile_removeFile_same (car : CarFS) (t n : String) :
    readFile (removeFile car t n) t n = none := by
  unfold readFile removeFile
  simp only
  rw [Option.map_eq_none', List.find?_eq_none]
  intro x hx
  have := (List.mem_filter.mp hx).2
  intro hq
  rw [hq] at this
  simp at this

theorem readFile_removeFile_other (car : CarFS) (t n t2 n2 : String)
    (h : t ≠ t2 ∨ n ≠ n2) :
    readFile (removeFile car t2 n2) t n = readFile car t n := by
  unfold readFile removeFile
  simp only
  rw [find?_filter_of_imp]
  intro e he
  rw [Bool.and_eq_true] at he
  have h1 : e.1 = t := eq_of_beq he.1
  have h2 : e.2.1 = n := eq_of_beq he.2
  rcases h with hh | hh
  · have : (e.1 == t2) = false := beq_eq_false_iff_ne.mpr (by rw [h1]; exact hh)
    simp [this]
  · have : (e.2.1 == n2) = false := beq_eq_false_iff_ne.mpr (by rw [h2]; exact hh)
    simp [this]

theorem readFile_removeFile_none (car : CarFS) (t n t2 n2 : String)
    (h : readFile car t n = none) :
    readFile (removeFile car t2 n2) t n = none := by
  unfold readFile removeFile
  simp only
  unfold readFile at h
  rw [Option.map_eq_none'] at h ⊢
  exact find?_none_of_sublist_filter _ _ _ h

theorem mem_listFiles_of_readFile (car : CarFS) (t n : String) (b : Nat)
    (h : readFile car t n = some b) : n ∈ listFiles car t := by
  unfold readFile at h
  rw [Option.map_eq_some'] at h
  rcases h with ⟨e, he, _⟩
  have hmem : e ∈ car.files := List.mem_of_find?_eq_some he
  have hq := List.find?_some he
  rw [Bool.and_eq_true] at hq
  have h1 : e.1 = t := eq_of_beq hq.1
  have h2 : e.2.1 = n := eq_of_beq hq.2
  unfold listFiles
  rw [List.mem_map]
  refine ⟨e, ?_, h2⟩
  rw [List.mem_filter]
  exact ⟨hmem, by simp [h1]⟩

theorem readFile_none_of_not_mem_listFiles (car : CarFS) (t n : String)
    (h : n ∉ listFiles car t) : readFile car t n = none := by
  cases hr : readFile car t n with
  | none => rfl
  | some b => exact absurd (mem_listFiles_of_readFile car t n b hr) h

end AccSetupSync

namespace AccSetupSync

theorem isDir_mkdir_self (car : CarFS) (t : String) : isDir (mkdir car t) t = true := by
  simp [isDir, mkdir]

theorem isDir_mkdir_of (car : CarFS) (t t2 : String) (h : isDir car t = true) :
    isDir (mkdir car t2) t = true := by
  have h2 : t ∈ car.dirs := by simpa [isDir] using h
  simp [isDir, mkdir, h2]

theorem ensureDirs_isDir_mono :
    ∀ (l : List String) (car : CarFS) (t : String),
      isDir car t = true → isDir (ensureDirs car l).1 t = true := by
  intro l
  induction l with
  | nil => intro car t h; exact h
  | cons x xs ih =>
    intro car t h
    unfold ensureDirs
    by_cases hx : isDir car x = true
    · rw [if_pos hx]
      exact ih car t h
    · rw [if_neg hx]
      exact ih (mkdir car x) t (isDir_mkdir_of car t x h)

theorem ensureDirs_isDir_of_mem :
    ∀ (l : List String) (car : CarFS) (t : String),
      t ∈ l → isDir (ensureDirs car l).1 t = true := by
  intro l
  induction l with
  | nil => intro car t h; cases h
  | cons x xs ih =>
    intro car t h
    unfold ensureDirs
    by_cases hx : isDir car x = true
    · rw [if_pos hx]
      rcases List.mem_cons.mp h with h | h
      · subst h; exact ensureDirs_isDir_mono xs car t hx
      · exact ih car t h
    · rw [if_neg hx]
      rcases List.mem_cons.mp h with h | h
      · subst h
        exact ensureDirs_isDir_mono xs (mkdir car t) t (isDir_mkdir_self car t)
      · exact ih (mkdir car x) t h

theorem ensureDirs_files :
    ∀ (l : List String) (car : CarFS), (ensureDirs car l).1.files = car.files := by
  intro l
  induction l with
  | nil => intro car; rfl
  | cons x xs ih =>
    intro car
    unfold ensureDirs
    by_cases hx : isDir car x = true
    · rw [if_pos hx]; exact ih car
    · rw [if_neg hx]; exact ih (mkdir car x)

theorem ensureDirs_eq_of_all :
    ∀ (l : List String) (car : CarFS),
      (∀ t ∈ l, isDir car t = true) → ensureDirs car l = (car, []) := by
  intro l
  induction l with
  | nil => intro car _; rfl
  | cons x xs ih =>
    intro car h
    unfold ensureDirs
    rw [if_pos (h x (List.mem_cons_self x xs))]
    exact ih car (fun t ht => h t (List.mem_cons_of_mem x ht))

theorem create_track_dirs_isDir (car : CarFS) (t : String)
    (h : t ∈ ACC_TRACK_FOLDERS) : isDir (create_track_dirs car).1 t = true :=
  ensureDirs_isDir_of_mem ACC_TRACK_FOLDERS car t h

theorem create_track_dirs_files (car : CarFS) :
    (create_track_dirs car).1.files = car.files :=
  ensureDirs_files ACC_TRACK_FOLDERS car

theorem readFile_create_track_dirs (car : CarFS) (t n : String) :
    readFile (create_track_dirs car).1 t n = readFile car t n := by
  unfold readFile
  rw [create_track_dirs_files]

theorem listFiles_create_track_dirs (car : CarFS) (t : String) :
    listFiles (create_track_dirs car).1 t = listFiles car t := by
  unfold listFiles
  rw [create_track_dirs_files]

theorem getCar_setCar (root : RootFS) (c : String) (car : CarFS) :
    getCar (setCar root c car) c = some car := by
  unfold getCar setCar
  by_cases ha : root.cars.any (fun e => e.1 == c) = true
  · rw [if_pos ha]
    simp only
    rw [find?_updateFirst_self _ _ (by intro e; rfl)]
    cases hfind : root.cars.find? (fun e => e.1 == c) with
    | none =>
      exfalso
      rw [List.find?_eq_none] at hfind
      rcases List.any_eq_true.mp ha with ⟨x, hx, hpx⟩
      exact hfind x hx hpx
    | some e => rfl
  · rw [if_neg ha]
    simp only
    rw [List.find?_append]
    have h0 : root.cars.find? (fun e => e.1 == c) = none := by
      rw [List.find?_eq_none]
      intro x hx
      have hx2 := List.any_eq_false.mp (Bool.not_eq_true _ |>.mp ha) x hx
      simp [hx2]
    rw [h0]
    simp [List.find?]

end AccSetupSync

namespace AccSetupSync

theorem contains_iff_mem_str (l : List String) (s : String) :
    l.contains s = true ↔ s ∈ l := by
  simp

theorem readFile_removeLoop_mem (tr : String) (setups : List String)
    (t n : String) (hn : n ∈ setups) :
    ∀ (lst : List String) (car : CarFS),
      readFile (removeLoop tr setups car lst) t n = readFile car t n := by
  intro lst
  induction lst with
  | nil => intro car; rfl
  | cons s rest ih =>
    intro car
    simp only [removeLoop]
    by_cases hc : setups.contains s = true
    · rw [if_pos hc]
      exact ih car
    · rw [if_neg hc]
      rw [ih]
      apply readFile_removeFile_other
      right
      intro hns
      exact hc ((contains_iff_mem_str setups s).mpr (hns ▸ hn))

theorem readFile_removeLoop_none (tr : String) (setups : List String)
    (t n : String) :
    ∀ (lst : List String) (car : CarFS),
      readFile car t n = none →
      readFile (removeLoop tr setups car lst) t n = none := by
  intro lst
  induction lst with
  | nil => intro car h; exact h
  | cons s rest ih =>
    intro car h
    simp only [removeLoop]
    by_cases hc : setups.contains s = true
    · rw [if_pos hc]
      exact ih car h
    · rw [if_neg hc]
      exact ih _ (readFile_removeFile_none car t n tr s h)

theorem removeLoop_removes (tr : String) (setups : List String) (n : String)
    (hn : n ∉ setups) :
    ∀ (lst : List String) (car : CarFS),
      (n ∈ lst ∨ readFile car tr n = none) →
      readFile (removeLoop tr setups car lst) tr n = none := by
  intro lst
  induction lst with
  | nil =>
    intro car h
    rcases h with h | h
    · cases h
    · exact h
  | cons s rest ih =>
    intro car h
    simp only [removeLoop]
    by_cases hc : setups.contains s = true
    · rw [if_pos hc]
      apply ih car
      rcases h with h | h
      · rcases List.mem_cons.mp h with h | h
        · exfalso
          exact hn (h ▸ (contains_iff_mem_str setups s).mp hc)
        · exact Or.inl h
      · exact Or.inr h
    · rw [if_neg hc]
      apply ih (removeFile car tr s)
      by_cases hns : n = s
      · exact Or.inr (by rw [hns]; exact readFile_removeFile_same car tr s)
      · rcases h with h | h
        · rcases List.mem_cons.mp h with h | h
          · exact absurd h hns
          · exact Or.inl h
        · exact Or.inr (readFile_removeFile_none car tr n tr s h)

theorem copyCheck_true (car : CarFS) (t : String) :
    ∀ lst : List String, (∀ s ∈ lst, isFile car t s = true) →
      copyCheck car t lst = true := by
  intro lst
  induction lst with
  | nil => intro _; rfl
  | cons s rest ih =>
    intro h
    simp only [copyCheck]
    rw [if_pos (h s (List.mem_cons_self s rest))]
    exact ih (fun x hx => h x (List.mem_cons_of_mem s hx))

theorem readFile_dirPass_mem (trackName : String) (setups : List String)
    (t n : String) (hn : n ∈ setups) :
    ∀ (ts : List String) (car : CarFS),
      readFile (dirPass trackName setups car ts).1 t n = readFile car t n := by
  intro ts
  induction ts with
  | nil => intro car; rfl
  | cons x rest ih =>
    intro car
    simp only [dirPass]
    by_cases hx : (x == trackName) = true
    · rw [if_pos hx]
      exact ih car
    · rw [if_neg hx]
      by_cases hcc : copyCheck car x setups = true
      · rw [if_pos hcc]
        rw [ih]
        exact readFile_removeLoop_mem x setups t n hn (listFiles car x) car
      · rw [if_neg hcc]

theorem readFile_dirPass_none (trackName : String) (setups : List String)
    (t n : String) :
    ∀ (ts : List String) (car : CarFS),
      readFile car t n = none →
      readFile (dirPass trackName setups car ts).1 t n = none := by
  intro ts
  induction ts with
  | nil => intro car h; exact h
  | cons x rest ih =>
    intro car h
    simp only [dirPass]
    by_cases hx : (x == trackName) = true
    · rw [if_pos hx]
      exact ih car h
    · rw [if_neg hx]
      by_cases hcc : copyCheck car x setups = true
      · rw [if_pos hcc]
        exact ih _ (readFile_removeLoop_none x setups t n (listFiles car x) car h)
      · rw [if_neg hcc]
        exact h

theorem dirPass_deletes (trackName : String) (setups : List String) :
    ∀ (ts : List String) (car : CarFS),
      (∀ t ∈ ts, t ≠ trackName → ∀ n ∈ setups, isFile car t n = true) →
      (dirPass trackName setups car ts).2 = true ∧
      (∀ t ∈ ts, t ≠ trackName → ∀ n, n ∉ setups →
        readFile (dirPass trackName setups car ts).1 t n = none) := by
  intro ts
  induction ts with
  | nil => intro car _; exact ⟨rfl, by intro t ht; cases ht⟩
  | cons x rest ih =>
    intro car h
    simp only [dirPass]
    by_cases hx : (x == trackName) = true
    · rw [if_pos hx]
      have hxeq : x = trackName := eq_of_beq hx
      have hrest := ih car (fun t ht htn n hns => h t (List.mem_cons_of_mem x ht) htn n hns)
      refine ⟨hrest.1, ?_⟩
      intro t ht htn n hns
      rcases List.mem_cons.mp ht with hteq | htr
      · exact absurd (hteq.trans hxeq) htn
      · exact hrest.2 t htr htn n hns
    · rw [if_neg hx]
      have hxne : x ≠ trackName := ne_of_beq_false (Bool.not_eq_true _ |>.mp hx)
      have hcc : copyCheck car x setups = true :=
        copyCheck_true car x setups (h x (List.mem_cons_self x rest) hxne)
      rw [if_pos hcc]
      have hrest := ih (removeLoop x setups car (listFiles car x)) ?hinv
      case hinv =>
        intro t ht htn n hns
        unfold isFile
        rw [readFile_removeLoop_mem x setups t n hns]
        exact h t (List.mem_cons_of_mem x ht) htn n hns
      refine ⟨hrest.1, ?_⟩
      intro t ht htn n hns
      rcases List.mem_cons.mp ht with hteq | htr
      · subst hteq
        apply readFile_dirPass_none
        apply removeLoop_removes t setups n hns
        by_cases hmem : n ∈ listFiles car t
        · exact Or.inl hmem
        · exact Or.inr (readFile_none_of_not_mem_listFiles car t n hmem)
      · exact hrest.2 t htr htn n hns

theorem filePass_spec (trackName sName : String) (b : Nat) :
    ∀ (ts : List String) (car : CarFS),
      readFile car trackName sName = some b →
      (∀ t ∈ ts, isDir car t = true) →
      (filePass trackName sName car ts).2 = true ∧
      readFile (filePass trackName sName car ts).1 trackName sName = some b ∧
      (∀ t ∈ ts, t ≠ trackName →
        readFile (filePass trackName sName car ts).1 t sName = some b) ∧
      (∀ t2, readFile car t2 sName = some b →
        readFile (filePass trackName sName car ts).1 t2 sName = some b) := by
  intro ts
  induction ts with
  | nil =>
    intro car hsrc _
    exact ⟨rfl, hsrc, (by intro t ht; cases ht), fun t2 h2 => h2⟩
  | cons x rest ih =>
    intro car hsrc hdirs
    simp only [filePass]
    by_cases hx : (x == trackName) = true
    · rw [if_pos hx]
      have hxeq : x = trackName := eq_of_beq hx
      have hrest := ih car hsrc (fun t ht => hdirs t (List.mem_cons_of_mem x ht))
      refine ⟨hrest.1, hrest.2.1, ?_, hrest.2.2.2⟩
      intro t ht htn
      rcases List.mem_cons.mp ht with hteq | htr
      · exact absurd (hteq.trans hxeq) htn
      · exact hrest.2.2.1 t htr htn
    · rw [if_neg hx]
      have hxne : x ≠ trackName := ne_of_beq_false (Bool.not_eq_true _ |>.mp hx)
      rw [hsrc]
      have hsrc2 : readFile (writeFile car x sName b) trackName sName = some b := by
        rw [readFile_writeFile_other car trackName sName x sName b (Or.inl (fun hh => hxne hh.symm))]
        exact hsrc
      have hdirs2 : ∀ t ∈ rest, isDir (writeFile car x sName b) t = true := by
        intro t ht
        rw [isDir_writeFile]
        exact hdirs t (List.mem_cons_of_mem x ht)
      have hx2 : readFile (writeFile car x sName b) x sName = some b :=
        readFile_writeFile_same car x sName b (hdirs x (List.mem_cons_self x rest))
      have hrest := ih (writeFile car x sName b) hsrc2 hdirs2
      refine ⟨hrest.1, hrest.2.1, ?_, ?_⟩
      · intro t ht htn
        rcases List.mem_cons.mp ht with hteq | htr
        · subst hteq
          exact hrest.2.2.2 t hx2
        · exact hrest.2.2.1 t htr htn
      · intro t2 h2
        by_cases ht2 : t2 = x
        · subst ht2
          exact hrest.2.2.2 t2 hx2
        · apply hrest.2.2.2 t2
          rw [readFile_writeFile_other car t2 sName x sName b (Or.inl ht2)]
          exact h2

end AccSetupSync

namespace AccSetupSync

theorem on_modified_body_dir_eq (root : RootFS) (car : CarFS)
    (carName trackName : String)
    (hne : carName ≠ "Setups") (hget : getCar root carName = some car) :
    on_modified_body root true ["Setups", carName, trackName] =
      (setCar root carName
        (dirPass trackName (listFiles (create_track_dirs car).1 trackName)
          (create_track_dirs car).1 ACC_TRACK_FOLDERS).1,
       (dirPass trackName (listFiles (create_track_dirs car).1 trackName)
          (create_track_dirs car).1 ACC_TRACK_FOLDERS).2) := by
  have hbe : (carNameOf true ["Setups", carName, trackName] == "Setups") = false :=
    beq_eq_false_iff_ne.mpr hne
  have hget2 : getCar root (carNameOf true ["Setups", carName, trackName]) = some car :=
    hget
  simp only [on_modified_body]
  rw [hbe, hget2]
  rfl

theorem on_modified_body_file_eq (root : RootFS) (car : CarFS)
    (carName trackName sName : String)
    (hne : carName ≠ "Setups") (hget : getCar root carName = some car) :
    on_modified_body root false ["Setups", carName, trackName, sName] =
      (setCar root carName
        (filePass trackName sName (create_track_dirs car).1 ACC_TRACK_FOLDERS).1,
       (filePass trackName sName (create_track_dirs car).1 ACC_TRACK_FOLDERS).2) := by
  have hbe : (carNameOf false ["Setups", carName, trackName, sName] == "Setups") = false :=
    beq_eq_false_iff_ne.mpr hne
  have hget2 : getCar root (carNameOf false ["Setups", carName, trackName, sName]) = some car :=
    hget
  simp only [on_modified_body]
  rw [hbe, hget2]
  rfl

theorem enqueueAll_is_paused :
    ∀ (es : List FsEvent) (o : ObsState),
      (enqueueAll o es).is_paused = o.is_paused := by
  intro es
  induction es with
  | nil => intro o; rfl
  | cons e rest ih =>
    intro o
    simp only [enqueueAll]
    rw [ih]
    rfl


end AccSetupSync

namespace AccSetupSync

theorem find?_map_keys {α β : Type} (g : α → β) (q : β → Bool) (p : α → Bool)
    (h : ∀ e, q (g e) = p e) :
    ∀ l : List α, (l.map g).find? q = (l.find? p).map g := by
  intro l
  induction l with
  | nil => rfl
  | cons x xs ih =>
    by_cases hp : p x = true
    · rw [List.map_cons, List.find?_cons_of_pos _ (by rw [h x]; exact hp),
        List.find?_cons_of_pos _ hp]
      rfl
    · simp only [Bool.not_eq_true] at hp
      rw [List.map_cons, List.find?_cons_of_neg _ (by rw [h x, hp]; exact Bool.false_ne_true),
        List.find?_cons_of_neg _ (by rw [hp]; exact Bool.false_ne_true), ih]

theorem any_map_keys {α β : Type} (g : α → β) (q : β → Bool) (p : α → Bool)
    (h : ∀ e, q (g e) = p e) :
    ∀ l : List α, (l.map g).any q = l.any p := by
  intro l
  induction l with
  | nil => rfl
  | cons x xs ih =>
    rw [List.map_cons, List.any_cons, List.any_cons, h x, ih]

theorem filter_map_keys {α β : Type} (g : α → β) (q : β → Bool) (p : α → Bool)
    (h : ∀ e, q (g e) = p e) :
    ∀ l : List α, (l.map g).filter q = (l.filter p).map g := by
  intro l
  induction l with
  | nil => rfl
  | cons x xs ih =>
    by_cases hp : p x = true
    · rw [List.map_cons, List.filter_cons_of_pos (by rw [h x]; exact hp),
        List.filter_cons_of_pos hp, List.map_cons, ih]
    · simp only [Bool.not_eq_true] at hp
      rw [List.map_cons, List.filter_cons_of_neg (by rw [h x, hp]; exact Bool.false_ne_true),
        List.filter_cons_of_neg (by rw [hp]; exact Bool.false_ne_true), ih]

theorem updateFirst_map_comm {α β : Type} (g : α → β) (q : β → Bool) (p : α → Bool)
    (g2 : β → β) (g1 : α → α)
    (hq : ∀ e, q (g e) = p e) (hc : ∀ e, g2 (g e) = g (g1 e)) :
    ∀ l : List α, updateFirst q g2 (l.map g) = (updateFirst p g1 l).map g := by
  intro l
  induction l with
  | nil => rfl
  | cons x xs ih =>
    by_cases hp : p x = true
    · simp only [List.map_cons, updateFirst, hq x, hp, if_true, hc x]
    · simp only [Bool.not_eq_true] at hp
      simp only [List.map_cons, updateFirst, hq x, hp, Bool.false_eq_true, if_false, ih]

theorem isDir_mapB (f : Nat → Nat) (car : CarFS) (t : String) :
    isDir (mapB f car) t = isDir car t := rfl

theorem mkdir_mapB (f : Nat → Nat) (car : CarFS) (t : String) :
    mkdir (mapB f car) t = mapB f (mkdir car t) := rfl

theorem listFiles_mapB (f : Nat → Nat) (car : CarFS) (t : String) :
    listFiles (mapB f car) t = listFiles car t := by
  unfold listFiles mapB
  rw [filter_map_keys _ _ (fun e => e.1 == t) (fun e => rfl), List.map_map]
  rfl

theorem readFile_mapB (f : Nat → Nat) (car : CarFS) (t n : String) :
    readFile (mapB f car) t n = (readFile car t n).map f := by
  unfold readFile mapB
  rw [find?_map_keys _ _ (fun e => e.1 == t && e.2.1 == n) (fun e => rfl)]
  cases car.files.find? (fun e => e.1 == t && e.2.1 == n) <;> rfl

theorem writeFile_mapB (f : Nat → Nat) (car : CarFS) (t n : String) (b : Nat) :
    writeFile (mapB f car) t n (f b) = mapB f (writeFile car t n b) := by
  unfold writeFile
  rw [isDir_mapB]
  by_cases hd : isDir car t = true
  · rw [if_pos hd, if_pos hd]
    have hfiles : (mapB f car).files =
        List.map (fun e => (e.1, e.2.1, f e.2.2)) car.files := rfl
    have hany : (List.map (fun e => (e.1, e.2.1, f e.2.2)) car.files).any
          (fun e => e.1 == t && e.2.1 == n) =
        car.files.any (fun e => e.1 == t && e.2.1 == n) :=
      any_map_keys (fun e => (e.1, e.2.1, f e.2.2))
        (fun e => e.1 == t && e.2.1 == n) (fun e => e.1 == t && e.2.1 == n)
        (fun e => rfl) car.files
    rw [hfiles, hany]
    by_cases ha : car.files.any (fun e => e.1 == t && e.2.1 == n) = true
    · rw [if_pos ha, if_pos ha]
      show CarFS.mk _ _ = _
      unfold mapB
      rw [updateFirst_map_comm (fun e => (e.1, e.2.1, f e.2.2))
        (fun e => e.1 == t && e.2.1 == n) (fun e => e.1 == t && e.2.1 == n)
        (fun e => (e.1, e.2.1, f b)) (fun e => (e.1, e.2.1, b))
        (fun e => rfl) (fun e => rfl) car.files]
    · rw [if_neg ha, if_neg ha]
      show CarFS.mk _ _ = _
      unfold mapB
      rw [List.map_append]
      rfl
  · rw [if_neg hd, if_neg hd]

theorem removeFile_mapB (f : Nat → Nat) (car : CarFS) (t n : String) :
    removeFile (mapB f car) t n = mapB f (removeFile car t n) := by
  show (⟨car.dirs,
      List.filter (fun e => !(e.1 == t && e.2.1 == n))
        (List.map (fun e => (e.1, e.2.1, f e.2.2)) car.files)⟩ : CarFS) =
    ⟨car.dirs,
      List.map (fun e => (e.1, e.2.1, f e.2.2))
        (List.filter (fun e => !(e.1 == t && e.2.1 == n)) car.files)⟩
  rw [filter_map_keys (fun e => (e.1, e.2.1, f e.2.2))
    (fun e => !(e.1 == t && e.2.1 == n)) (fun e => !(e.1 == t && e.2.1 == n))
    (fun e => rfl) car.files]

theorem moveFile_mapB (f : Nat → Nat) (car : CarFS) (t n n2 : String) :
    moveFile (mapB f car) t n n2 = mapB f (moveFile car t n n2) := by
  unfold moveFile
  rw [readFile_mapB]
  cases hr : readFile car t n with
  | none => rfl
  | some b0 =>
    simp only [Option.map_some']
    rw [removeFile_mapB, writeFile_mapB]

theorem ensureDirs_mapB (f : Nat → Nat) :
    ∀ (l : List String) (car : CarFS),
      ensureDirs (mapB f car) l =
        (mapB f (ensureDirs car l).1, (ensureDirs car l).2) := by
  intro l
  induction l with
  | nil => intro car; rfl
  | cons t rest ih =>
    intro car
    simp only [ensureDirs, isDir_mapB]
    by_cases hd : isDir car t = true
    · rw [if_pos hd, if_pos hd]
      exact ih car
    · rw [if_neg hd, if_neg hd, mkdir_mapB, ih (mkdir car t)]

theorem create_track_dirs_mapB (f : Nat → Nat) (car : CarFS) :
    (create_track_dirs (mapB f car)).1 = mapB f (create_track_dirs car).1 := by
  unfold create_track_dirs
  rw [ensureDirs_mapB]

theorem renameTrack_mapB (f : Nat → Nat) (track : String) :
    ∀ (lst : List String) (car : CarFS),
      renameTrack track (mapB f car) lst =
        (mapB f (renameTrack track car lst).1, (renameTrack track car lst).2) := by
  intro lst
  induction lst with
  | nil => intro car; rfl
  | cons s rest ih =>
    intro car
    simp only [renameTrack]
    rw [moveFile_mapB, ih (moveFile car track s (track ++ "-" ++ s))]

theorem renamePhase_mapB (f : Nat → Nat) :
    ∀ (l : List String) (car : CarFS),
      renamePhase (mapB f car) l =
        (mapB f (renamePhase car l).1, (renamePhase car l).2) := by
  intro l
  induction l with
  | nil => intro car; rfl
  | cons t rest ih =>
    intro car
    simp only [renamePhase, listFiles_mapB]
    rw [renameTrack_mapB]
    cases hrt : renameTrack t car (listFiles car t) with
    | mk car1 ps1 =>
      simp only
      rw [ih car1]

theorem copyOne_mapB (f : Nat → Nat) (srcTrack n : String) :
    ∀ (l : List String) (car : CarFS),
      copyOne srcTrack n (mapB f car) l =
        (mapB f (copyOne srcTrack n car l).1, (copyOne srcTrack n car l).2) := by
  intro l
  induction l with
  | nil => intro car; rfl
  | cons t rest ih =>
    intro car
    simp only [copyOne]
    by_cases ht : (t == srcTrack) = true
    · rw [if_pos ht, if_pos ht]
      exact ih car
    · rw [if_neg ht, if_neg ht, readFile_mapB]
      cases hr : readFile car srcTrack n with
      | none => rfl
      | some b0 =>
        simp only [Option.map_some']
        rw [writeFile_mapB, ih (writeFile car t n b0)]

theorem copyPhase_mapB (f : Nat → Nat) :
    ∀ (ps : List (String × String)) (car : CarFS),
      copyPhase (mapB f car) ps =
        (mapB f (copyPhase car ps).1, (copyPhase car ps).2) := by
  intro ps
  induction ps with
  | nil => intro car; rfl
  | cons p rest ih =>
    intro car
    simp only [copyPhase]
    rw [copyOne_mapB]
    cases hco : copyOne p.1 p.2 car ACC_TRACK_FOLDERS with
    | mk car1 ok =>
      simp only
      cases ok with
      | false => rfl
      | true =>
        simp only [if_true]
        exact ih car1

theorem initCar_mapB (f : Nat → Nat) (car : CarFS) :
    initCar (mapB f car) = (mapB f (initCar car).1, (initCar car).2) := by
  unfold initCar
  rw [create_track_dirs_mapB, renamePhase_mapB]
  cases hrp : renamePhase (create_track_dirs car).1 ACC_TRACK_FOLDERS with
  | mk car2 setupPaths =>
    simp only
    rw [copyPhase_mapB]

theorem initCars_mapB (f : Nat → Nat) :
    ∀ cars : List (String × CarFS),
      initCars (cars.map (fun c => (c.1, mapB f c.2))) =
        ((initCars cars).1.map (fun c => (c.1, mapB f c.2)), (initCars cars).2) := by
  intro cars
  induction cars with
  | nil => rfl
  | cons c rest ih =>
    simp only [List.map_cons, initCars]
    rw [initCar_mapB]
    cases hic : initCar c.2 with
    | mk car2 ok =>
      simp only
      cases ok with
      | false => rfl
      | true =>
        simp only [if_true]
        rw [ih]
        cases hrest : initCars rest with
        | mk cars2 ok2 => rfl

theorem init_mapB (f : Nat → Nat) (root : RootFS) :
    init (mapBRoot f root) = (mapBRoot f (init root).1, (init root).2) := by
  unfold init mapBRoot
  rw [initCars_mapB]

end AccSetupSync

namespace AccSetupSync

/-- C1: the claim says a directory-level reconciliation pass copies every
filename present in the source track's file set but missing from a
target track, making the file sets identical across all 15 tracks.  On
the code this is false: in the directory branch the copy statement
references `setupPath`, which is only assigned in the single-file
branch, so the first missing target file raises `UnboundLocalError` and
nothing is copied.  Evaluated at a concrete root where `monza` holds
`s.json` and `Spa` lacks it: the pass aborts with an error and `Spa`
still lacks `s.json` afterwards. -/
theorem c1_directory_fanout_code_bug :
    "s.json" ∈ listFiles carMissingTarget "monza" ∧
    (on_modified_body rootMissingTarget true ["Setups", "F488", "monza"]).2 = false ∧
    readFile
      ((getCar (on_modified_body rootMissingTarget true
        ["Setups", "F488", "monza"]).1 "F488").getD emptyCar)
      "Spa" "s.json" = none := by
  decide

/-- C2 counterexample: the claim says the scoped-acquisition helper
(`ignore_events`) calls `resume` on every exit path, so the observer
never remains paused after the handler finishes.  The helper is a
generator-based context manager with a bare `yield` (no `try/finally`),
so when the protected region raises — which the directory branch does on
the concrete input below via its unbound `setupPath` — `resume` never
runs and the observer stays paused. -/
theorem c2_error_exit_stays_paused :
    (on_modified ⟨false, []⟩ rootMissingTarget true ["Setups", "F488", "monza"]).2.2 = false ∧
    (on_modified ⟨false, []⟩ rootMissingTarget true ["Setups", "F488", "monza"]).1.is_paused = true := by
  decide

/-- C2 amended: `resume` runs on the normal exit path of the protected
region — whenever the handler body completes without raising, the
observer is unpaused afterwards; on an error exit the exception
propagates before `resume`, leaving the observer paused. -/
theorem c2_resume_on_normal_exit (o : ObsState) (root : RootFS)
    (d : Bool) (p : List String)
    (h : (on_modified o root d p).2.2 = true) :
    (on_modified o root d p).1.is_paused = false := by
  simp only [on_modified] at h ⊢
  cases hr : (on_modified_body root d p).2 with
  | false =>
    rw [hr] at h
    exact Bool.noConfusion h
  | true => rfl

/-- C2 amended witness: a concrete event the handler completes normally
on (a root-level pseudo-event), after which the observer is unpaused. -/
theorem c2_resume_on_normal_exit_witness :
    (on_modified ⟨false, []⟩ ⟨[]⟩ true ["Setups", "SomeCar"]).2.2 = true ∧
    (on_modified ⟨false, []⟩ ⟨[]⟩ true ["Setups", "SomeCar"]).1.is_paused = false :=
  ⟨by decide, c2_resume_on_normal_exit ⟨false, []⟩ ⟨[]⟩ true ["Setups", "SomeCar"] (by decide)⟩

/-- C3: a single-file (non-directory) change event on an existing setup
file copies the source file's current bytes to the same filename in each
of the other 14 known track directories, overwriting unconditionally:
afterwards every other known track's same-named file holds exactly the
source bytes. -/
theorem c3_single_file_clobber (root : RootFS) (car : CarFS)
    (carName trackName sName : String) (b : Nat)
    (hne : carName ≠ "Setups")
    (hget : getCar root carName = some car)
    (hread : readFile car trackName sName = some b) :
    (on_modified_body root false ["Setups", carName, trackName, sName]).2 = true ∧
    ∃ car2,
      getCar (on_modified_body root false
        ["Setups", carName, trackName, sName]).1 carName = some car2 ∧
      ∀ t ∈ ACC_TRACK_FOLDERS, t ≠ trackName → readFile car2 t sName = some b := by
  rw [on_modified_body_file_eq root car carName trackName sName hne hget]
  have hsrc1 : readFile (create_track_dirs car).1 trackName sName = some b := by
    rw [readFile_create_track_dirs]
    exact hread
  have hdirs1 : ∀ t ∈ ACC_TRACK_FOLDERS, isDir (create_track_dirs car).1 t = true :=
    fun t ht => create_track_dirs_isDir car t ht
  have hspec := filePass_spec trackName sName b ACC_TRACK_FOLDERS
    (create_track_dirs car).1 hsrc1 hdirs1
  exact ⟨hspec.1, _, getCar_setCar root carName _, hspec.2.2.1⟩

/-- C3 witness: a concrete single-file event on `monza/s.json` (bytes 1)
fans the bytes out to every other known track. -/
theorem c3_single_file_clobber_witness :
    (on_modified_body rootMissingTarget false ["Setups", "F488", "monza", "s.json"]).2 = true ∧
    ∃ car2,
      getCar (on_modified_body rootMissingTarget false
        ["Setups", "F488", "monza", "s.json"]).1 "F488" = some car2 ∧
      ∀ t ∈ ACC_TRACK_FOLDERS, t ≠ "monza" → readFile car2 t "s.json" = some 1 :=
  c3_single_file_clobber rootMissingTarget carMissingTarget
    "F488" "monza" "s.json" 1 (by decide) rfl rfl

/-- C4: during a directory-level reconciliation pass, a file whose name
is in the source track's file set is never overwritten or removed at any
track: its bytes are unchanged afterwards, whether or not the pass
completes. -/
theorem c4_dir_pass_never_overwrites (root : RootFS) (car : CarFS)
    (carName trackName t n : String) (b : Nat)
    (hne : carName ≠ "Setups")
    (hget : getCar root carName = some car)
    (hmem : n ∈ listFiles car trackName)
    (hread : readFile car t n = some b) :
    ∃ car2,
      getCar (on_modified_body root true ["Setups", carName, trackName]).1 carName = some car2 ∧
      readFile car2 t n = some b := by
  rw [on_modified_body_dir_eq root car carName trackName hne hget]
  refine ⟨_, getCar_setCar root carName _, ?_⟩
  have hmem1 : n ∈ listFiles (create_track_dirs car).1 trackName := by
    rw [listFiles_create_track_dirs]
    exact hmem
  rw [readFile_dirPass_mem trackName _ t n hmem1 ACC_TRACK_FOLDERS (create_track_dirs car).1]
  rw [readFile_create_track_dirs]
  exact hread

/-- C4 witness: `monza` holds `s.json` with bytes 5 and `Spa` holds a
same-named file with bytes 9; after the directory-level pass on `monza`,
`Spa` still holds bytes 9 (not clobbered). -/
theorem c4_dir_pass_never_overwrites_witness :
    ∃ car2,
      getCar (on_modified_body rootBoth true ["Setups", "F488", "monza"]).1 "F488" = some car2 ∧
      readFile car2 "Spa" "s.json" = some 9 :=
  c4_dir_pass_never_overwrites rootBoth carBoth
    "F488" "monza" "Spa" "s.json" 9 (by decide) rfl (by decide) (by decide)

/-- C5 counterexample: the claim says a directory-level pass on track A
deletes every filename present in another known track but absent from
A's file set, so the filename is afterwards absent from every track
directory.  On the code this fails: `a.json` is absent from `monza` and
present in `Barcelona` and `Spa`, but `monza` also holds `b.json` which
`Barcelona` lacks, so the pass aborts (unbound `setupPath`) before ever
reaching the removal loops, and `Spa` still holds `a.json` afterwards. -/
theorem c5_deletion_not_propagated :
    "a.json" ∉ listFiles carStale "monza" ∧
    "a.json" ∈ listFiles carStale "Spa" ∧
    readFile
      ((getCar (on_modified_body rootStale true
        ["Setups", "F488", "monza"]).1 "F488").getD emptyCar)
      "Spa" "a.json" = some 2 := by
  decide

/-- C5 amended: provided every filename of the source track's file set
is already present in every other known track directory (so the pass
completes without raising), a directory-level pass on the source track
deletes every filename absent from the source set from every known
track directory. -/
theorem c5_deletion_propagation_amended (root : RootFS) (car : CarFS)
    (carName trackName : String)
    (hne : carName ≠ "Setups")
    (hget : getCar root carName = some car)
    (hall : ∀ t ∈ ACC_TRACK_FOLDERS, t ≠ trackName →
      ∀ n ∈ listFiles car trackName, isFile car t n = true) :
    (on_modified_body root true ["Setups", carName, trackName]).2 = true ∧
    ∃ car2,
      getCar (on_modified_body root true ["Setups", carName, trackName]).1 carName = some car2 ∧
      ∀ t ∈ ACC_TRACK_FOLDERS, ∀ n, n ∉ listFiles car trackName →
        readFile car2 t n = none := by
  rw [on_modified_body_dir_eq root car carName trackName hne hget]
  have hl : listFiles (create_track_dirs car).1 trackName = listFiles car trackName :=
    listFiles_create_track_dirs car trackName
  have hall1 : ∀ t ∈ ACC_TRACK_FOLDERS, t ≠ trackName →
      ∀ n ∈ listFiles (create_track_dirs car).1 trackName,
        isFile (create_track_dirs car).1 t n = true := by
    intro t ht htn n hn
    unfold isFile
    rw [readFile_create_track_dirs]
    exact hall t ht htn n (hl ▸ hn)
  have hdel := dirPass_deletes trackName
    (listFiles (create_track_dirs car).1 trackName) ACC_TRACK_FOLDERS
    (create_track_dirs car).1 hall1
  refine ⟨hdel.1, _, getCar_setCar root carName _, ?_⟩
  intro t ht n hn
  by_cases htn : t = trackName
  · subst htn
    apply readFile_dirPass_none
    rw [readFile_create_track_dirs]
    exact readFile_none_of_not_mem_listFiles car t n hn
  · refine hdel.2 t ht htn n ?_
    rw [hl]
    exact hn

/-- C5 amended witness: a synchronized car where every track holds
`b.json`; the pass on `monza` completes and any name outside the source
set is absent everywhere afterwards (instantiated at `a.json`,
`Spa`). -/
theorem c5_deletion_propagation_amended_witness :
    (on_modified_body rootSynced true ["Setups", "F488", "monza"]).2 = true ∧
    ∃ car2,
      getCar (on_modified_body rootSynced true ["Setups", "F488", "monza"]).1 "F488" = some car2 ∧
      ∀ t ∈ ACC_TRACK_FOLDERS, ∀ n, n ∉ listFiles carSynced "monza" →
        readFile car2 t n = none :=
  c5_deletion_propagation_amended rootSynced carSynced "F488" "monza"
    (by decide) rfl (by decide)

/-- C6: an event whose resolved car segment is the reserved name
`"Setups"` (an event one level too shallow, directly under the watched
root) is discarded before any filesystem operation: the handler body
returns with the filesystem unchanged and no error. -/
theorem c6_root_pseudo_event_ignored (root : RootFS) (d : Bool)
    (p : List String) (h : carNameOf d p = "Setups") :
    on_modified_body root d p = (root, true) := by
  simp only [on_modified_body]
  rw [h]
  simp

/-- C6 witness: a concrete directory event directly under the root. -/
theorem c6_root_pseudo_event_ignored_witness :
    carNameOf true ["Setups", "MyCar"] = "Setups" ∧
    on_modified_body rootStale true ["Setups", "MyCar"] = (rootStale, true) :=
  ⟨by decide, c6_root_pseudo_event_ignored rootStale true ["Setups", "MyCar"] (by decide)⟩

/-- C7: while the observer is paused, `dispatch_events` delivers nothing
and leaves the state unchanged (however many events the backend queued
during the pause); `resume` then discards every queued event and only
then re-enables dispatch, so the events generated by the engine's own
writes during a pass — all queued before the drain, which is what the
one-polling-interval sleep in `resume` is for — are never dispatched to
the handler and can never trigger another synchronization pass. -/
theorem c7_suppression_gate (o : ObsState) (es : List FsEvent) :
    dispatch_events (enqueueAll (pause o) es) = (enqueueAll (pause o) es, none) ∧
    (resume (enqueueAll (pause o) es)).queue = [] ∧
    (resume (enqueueAll (pause o) es)).is_paused = false := by
  refine ⟨?_, rfl, rfl⟩
  unfold dispatch_events
  have hp : (enqueueAll (pause o) es).is_paused = true := by
    rw [enqueueAll_is_paused]
    rfl
  rw [hp]
  rfl

/-- C8: the Directory Ensurer is idempotent: after one run every one of
the 15 known track directories exists, and a second run immediately
after performs no filesystem change — it returns the same state and an
empty list of created directories. -/
theorem c8_directory_ensurer_idempotent (car : CarFS) :
    (∀ t ∈ ACC_TRACK_FOLDERS, isDir (create_track_dirs car).1 t = true) ∧
    create_track_dirs ((create_track_dirs car).1) =
      ((create_track_dirs car).1, ([] : List String)) := by
  refine ⟨fun t ht => create_track_dirs_isDir car t ht, ?_⟩
  exact ensureDirs_eq_of_all ACC_TRACK_FOLDERS _
    (fun t ht => create_track_dirs_isDir car t ht)

/-- C8 witness: instantiated at the empty car directory and the track
`monza`. -/
theorem c8_directory_ensurer_idempotent_witness :
    isDir (create_track_dirs emptyCar).1 "monza" = true ∧
    create_track_dirs ((create_track_dirs emptyCar).1) =
      ((create_track_dirs emptyCar).1, ([] : List String)) :=
  ⟨(c8_directory_ensurer_idempotent emptyCar).1 "monza" (by decide),
   (c8_directory_ensurer_idempotent emptyCar).2⟩


set_option maxHeartbeats 1000000 in
/-- C9: for a car whose only setup file is `setup1.json` (bytes `b`)
under `monza`, one run of the Bulk Initializer leaves `monza` containing
exactly the single file `monza-setup1.json` (renamed in place — the old
name is gone), and every one of the 15 known tracks holds
`monza-setup1.json` with bytes `b`. -/
theorem c9_bulk_initializer_single_setup (b : Nat) :
    (init (rootSingle b)).2 = true ∧
    ∃ car2,
      getCar (init (rootSingle b)).1 "Ferrari488" = some car2 ∧
      listFiles car2 "monza" = ["monza-setup1.json"] ∧
      readFile car2 "monza" "setup1.json" = none ∧
      ∀ t ∈ ACC_TRACK_FOLDERS, readFile car2 t "monza-setup1.json" = some b := by
  have h0 : rootSingle b = mapBRoot (fun _ => b) (rootSingle 0) := rfl
  have h1 : init (rootSingle 0) = (⟨[("Ferrari488", carAfterInit 0)]⟩, true) := by decide
  have h : init (rootSingle b) = (⟨[("Ferrari488", carAfterInit b)]⟩, true) := by
    rw [h0, init_mapB, h1]
    rfl
  rw [h]
  refine ⟨rfl, carAfterInit b, rfl, rfl, rfl, ?_⟩
  intro t ht
  simp only [ACC_TRACK_FOLDERS, List.mem_cons, List.not_mem_nil, or_false] at ht
  rcases ht with rfl | rfl | rfl | rfl | rfl | rfl | rfl | rfl | rfl | rfl | rfl | rfl | rfl | rfl | rfl <;> rfl

/-- C9 witness: instantiated at bytes 3. -/
theorem c9_bulk_initializer_single_setup_witness :
    (init (rootSingle 3)).2 = true ∧
    ∃ car2,
      getCar (init (rootSingle 3)).1 "Ferrari488" = some car2 ∧
      listFiles car2 "monza" = ["monza-setup1.json"] ∧
      readFile car2 "monza" "setup1.json" = none ∧
      ∀ t ∈ ACC_TRACK_FOLDERS, readFile car2 t "monza-setup1.json" = some 3 :=
  c9_bulk_initializer_single_setup 3

set_option maxHeartbeats 8000000 in
set_option maxRecDepth 100000 in
/-- C10: the Bulk Initializer's rename step prefixes every file found in
each track unconditionally, including files already carrying a prefix
from an earlier run: running it a second time on the car of C9 renames
`monza-setup1.json` to `monza-monza-setup1.json` in `monza` (and, e.g.,
to `Barcelona-monza-setup1.json` in `Barcelona`), so initialization is
not idempotent — the second run changes the filesystem again. -/
theorem c10_initializer_not_idempotent :
    (init (init (rootSingle 7)).1).2 = true ∧
    readFile ((getCar (init (init (rootSingle 7)).1).1 "Ferrari488").getD emptyCar)
      "monza" "monza-monza-setup1.json" = some 7 ∧
    readFile ((getCar (init (init (rootSingle 7)).1).1 "Ferrari488").getD emptyCar)
      "monza" "monza-setup1.json" = none ∧
    readFile ((getCar (init (init (rootSingle 7)).1).1 "Ferrari488").getD emptyCar)
      "Barcelona" "Barcelona-monza-setup1.json" = some 7 ∧
    (init (init (rootSingle 7)).1).1 ≠ (init (rootSingle 7)).1 := by
  decide

end AccSetupSync
